import Mathlib

/-!
Shallow embedding of the audio acquisition-and-cleaning pipeline of
src/Home.py (a Streamlit speech-filtering script).

Samples are modelled as exact rationals (the source works on numpy
float arrays; the spec states its amplitude properties up to
floating-point tolerance, which the exact model realises exactly).
An audio buffer is a `List ℚ` in arrival order.

The two external library calls of the source — `nr.reduce_noise`
(spectral-gating denoiser) and `scipy.signal.butter`/`lfilter`
(Butterworth design and IIR filtering) — are not code of this
repository; they enter the embedding as uninterpreted function
parameters, so every theorem below holds for an arbitrary behaviour
of those stages.
-/

namespace SpeechFilter

/-- Embedding of fetching the peak absolute amplitude
np.max (np.abs xs) of src/Home.py line 91: numpy raises a ValueError
on a zero-length array, so the result is an `Option`; on a non-empty
list it is the maximum of the absolute values. -/
def npMaxAbs (xs : List ℚ) : Option ℚ :=
  (xs.map (fun x => |x|)).max?

/-- Embedding of normalize_audio (src/Home.py lines 90-92):
max_val = np.max(np.abs(x)); return x if max_val == 0
else x / max_val * 0.9.  Fails (numpy raise) on the empty buffer. -/
def normalize_audio (xs : List ℚ) : Option (List ℚ) :=
  match npMaxAbs xs with
  | none => none
  | some max_val =>
      some (if max_val = 0 then xs else xs.map (fun x => x / max_val * (9/10)))

/-- Embedding of amplify_audio (src/Home.py lines 102-103):
np.clip (x * gain) (-1.0) 1.0, elementwise hard clipping.
The source's default gain 2.0 is applied at the call site. -/
def amplify_audio (xs : List ℚ) (gain : ℚ) : List ℚ :=
  xs.map (fun x => min (max (x * gain) (-1)) 1)

/-- The normalized critical frequencies [lowcut/nyq, highcut/nyq] with
nyq = 0.5 * sr that bandpass_filter (src/Home.py lines 97-100) hands to
scipy.signal.butter: the Butterworth design is a deterministic function
of these together with the order. -/
def bandpass_wn (srHz lowcut highcut : ℚ) : ℚ × ℚ :=
  (lowcut / ((1/2) * srHz), highcut / ((1/2) * srHz))

/-- The hardcoded default sample rate in bandpass_filter's signature
(src/Home.py line 97: sr=16000), overridden at the pipeline call site. -/
def bandpass_default_sr : ℚ := 16000

/-- Embedding of bandpass_filter (src/Home.py lines 97-100).
applyButter stands for the external scipy butter+lfilter composite,
applied to the design order and normalized band edges. -/
def bandpass_filter (applyButter : ℕ → ℚ × ℚ → List ℚ → List ℚ)
    (xs : List ℚ) (srHz lowcut highcut : ℚ) : List ℚ :=
  applyButter 6 (bandpass_wn srHz lowcut highcut) xs

/-- The module-level working sample rate (src/Home.py line 127): every
buffer in the script is decoded, captured and processed at this rate. -/
def srGlobal : ℕ := 48000

/-- Embedding of the cleaning section of process_and_display
(src/Home.py lines 140-144): normalize, then the noisereduce call, then
bandpass_filter at the working rate, then amplify with gain 2, then
normalize again.  noiseRed stands for the external nr.reduce_noise.
The result is the cleaned buffer; `none` when normalize fails. -/
def cleanChain (noiseRed : List ℚ → List ℚ)
    (applyButter : ℕ → ℚ × ℚ → List ℚ → List ℚ)
    (xs : List ℚ) : Option (List ℚ) :=
  (normalize_audio xs).bind fun a1 =>
    normalize_audio
      (amplify_audio
        (bandpass_filter applyButter (noiseRed a1) (srGlobal : ℚ) 500 2800)
        2)

/-- Embedding of process_and_display (src/Home.py lines 131-151) as a
producer of the (original, cleaned) pair: the original buffer is written
out unmodified (lines 134-137; no stage mutates its input array), the
cleaned buffer is the result of the five-stage chain. -/
def process_and_display (noiseRed : List ℚ → List ℚ)
    (applyButter : ℕ → ℚ × ℚ → List ℚ → List ℚ)
    (xs : List ℚ) : Option (List ℚ × List ℚ) :=
  (cleanChain noiseRed applyButter xs).map fun cleaned => (xs, cleaned)

/-- Outcome of pressing the Process Mic Recording button
(src/Home.py lines 175-184). -/
inductive MicOutcome where
  /-- np.concatenate of the empty frame list raises ValueError
  (src/Home.py line 177 with webrtc playing and zero chunks). -/
  | crashConcatEmpty : MicOutcome
  /-- st.warning asking for at least 2 seconds (line 179). -/
  | insufficientDuration : MicOutcome
  /-- process_and_display is invoked on this trailing window (line 182). -/
  | processed (window : List ℚ) : MicOutcome
  /-- st.warning that no audio data is available (line 184). -/
  | noAudioData : MicOutcome
  deriving DecidableEq

/-- Embedding of the snapshot part of the mic button handler
(src/Home.py lines 177-182): concatenate all captured frames
(np.concatenate raises on an empty list), reject totals shorter than
2 seconds, else keep the last 10 seconds (the Python slice
raw_audio[-srHz * 10:], i.e. drop all but the trailing srHz*10
samples). -/
def micSnapshot (srHz : ℕ) (frames : List (List ℚ)) : MicOutcome :=
  match frames with
  | [] => .crashConcatEmpty
  | _ :: _ =>
      let raw := frames.flatten
      if raw.length < srHz * 2 then .insufficientDuration
      else .processed (raw.drop (raw.length - srHz * 10))

/-- Embedding of the Process Mic Recording button handler
(src/Home.py lines 175-184): the snapshot runs only when the webrtc
context is playing and an audio processor is attached, otherwise the
handler warns that no audio data is available. -/
def micButtonHandler (playing hasProcessor : Bool) (srHz : ℕ)
    (frames : List (List ℚ)) : MicOutcome :=
  if playing && hasProcessor then micSnapshot srHz frames
  else .noAudioData

/-- Modelled from the spec: the FilterSpecification produced by the
BandpassFilter design operation of spec section 4.4.  The source has no
such value type (it calls scipy.signal.butter directly); the spec makes
it immutable band edges, order and target sample rate. -/
structure FilterSpecification where
  lowHz : ℚ
  highHz : ℚ
  order : ℕ
  sampleRate : ℚ
  deriving DecidableEq

/-- Modelled from the spec: the design(order, lowHz, highHz, sampleRate)
operation of spec section 4.4, whose validation is missing from src
(src hands the band straight to scipy).  It fails with InvalidBand —
here `none` — exactly when 0 < lowHz < highHz < sampleRate/2 fails. -/
def design (order : ℕ) (lowHz highHz sampleRate : ℚ) :
    Option FilterSpecification :=
  if 0 < lowHz ∧ lowHz < highHz ∧ highHz < sampleRate / 2 then
    some ⟨lowHz, highHz, order, sampleRate⟩
  else none

/-! Helper lemmas about the peak-amplitude computation. -/

/-- Folding max over a list scaled by a nonnegative constant scales the fold. -/
theorem foldl_max_mul (c : ℚ) (hc : 0 ≤ c) (l : List ℚ) :
    ∀ a : ℚ, (l.map (fun x => x * c)).foldl max (a * c) = l.foldl max a * c := by
  induction l with
  | nil => intro a; rfl
  | cons b l ih =>
      intro a
      simp only [List.map_cons, List.foldl_cons]
      rw [← max_mul_of_nonneg a b hc, ih (max a b)]

/-- List.max? commutes with scaling by a nonnegative constant. -/
theorem max?_map_mul (l : List ℚ) (c : ℚ) (hc : 0 ≤ c) :
    (l.map (fun x => x * c)).max? = l.max?.map (fun m => m * c) := by
  cases l with
  | nil => rfl
  | cons a l =>
      show some ((l.map (fun x => x * c)).foldl max (a * c)) = some (l.foldl max a * c)
      rw [foldl_max_mul c hc l a]

/-- npMaxAbs commutes with scaling by a nonnegative constant. -/
theorem npMaxAbs_map_mul (xs : List ℚ) (c : ℚ) (hc : 0 ≤ c) :
    npMaxAbs (xs.map (fun x => x * c)) = (npMaxAbs xs).map (fun m => m * c) := by
  have h1 : (xs.map (fun x => x * c)).map (fun x => |x|)
      = (xs.map (fun x => |x|)).map (fun x => x * c) := by
    simp only [List.map_map]
    refine List.map_congr_left fun x _ => ?_
    simp [Function.comp, abs_mul, abs_of_nonneg hc]
  rw [npMaxAbs, h1, max?_map_mul _ c hc, npMaxAbs]

/-- The initial accumulator is below the max fold. -/
theorem le_foldl_max_init (l : List ℚ) : ∀ a : ℚ, a ≤ l.foldl max a := by
  induction l with
  | nil => intro a; exact le_refl a
  | cons b l ih => intro a; exact le_trans (le_max_left a b) (ih (max a b))

/-- Every list element is below the max fold. -/
theorem le_foldl_max_mem (l : List ℚ) : ∀ a x : ℚ, x ∈ l → x ≤ l.foldl max a := by
  induction l with
  | nil => intro a x hx; cases hx
  | cons b l ih =>
      intro a x hx
      cases hx with
      | head => exact le_trans (le_max_right a b) (le_foldl_max_init l (max a b))
      | tail _ h => exact ih (max a b) x h

/-- The peak absolute amplitude is nonnegative and dominates every sample. -/
theorem npMaxAbs_spec (xs : List ℚ) (m : ℚ) (h : npMaxAbs xs = some m) :
    0 ≤ m ∧ ∀ x ∈ xs, |x| ≤ m := by
  cases xs with
  | nil => exact absurd h (by simp [npMaxAbs])
  | cons x l =>
      have hx : npMaxAbs (x :: l) = some ((l.map fun y => |y|).foldl max |x|) := rfl
      rw [hx] at h
      obtain rfl := (Option.some.inj h).symm
      refine ⟨le_trans (abs_nonneg x) (le_foldl_max_init _ _), ?_⟩
      intro y hy
      cases hy with
      | head => exact le_foldl_max_init _ _
      | tail _ hy' => exact le_foldl_max_mem _ _ _ (List.mem_map.2 ⟨y, hy', rfl⟩)

/-- On a non-empty buffer the peak computation succeeds. -/
theorem npMaxAbs_isSome (xs : List ℚ) (h : xs ≠ []) :
    ∃ m, npMaxAbs xs = some m := by
  cases xs with
  | nil => exact absurd rfl h
  | cons a l => exact ⟨_, rfl⟩

/-- Zero peak means an all-zero buffer. -/
theorem npMaxAbs_eq_zero (xs : List ℚ) (h : npMaxAbs xs = some 0) :
    ∀ x ∈ xs, x = 0 := by
  intro x hx
  have := (npMaxAbs_spec xs 0 h).2 x hx
  exact abs_nonpos_iff.1 this

/-- Unfolding of normalize_audio on a silent (zero-peak) buffer. -/
theorem normalize_audio_of_zero (xs : List ℚ) (h : npMaxAbs xs = some 0) :
    normalize_audio xs = some xs := by
  simp [normalize_audio, h]

/-- Unfolding of normalize_audio on a buffer of nonzero peak m. -/
theorem normalize_audio_of_ne_zero (xs : List ℚ) (m : ℚ)
    (h : npMaxAbs xs = some m) (h0 : m ≠ 0) :
    normalize_audio xs = some (xs.map (fun x => x / m * (9/10))) := by
  simp [normalize_audio, h, h0]

/-- After scaling a buffer of nonzero peak m by 0.9/m, the peak is 0.9. -/
theorem npMaxAbs_after_normalize (xs : List ℚ) (m : ℚ)
    (h : npMaxAbs xs = some m) (h0 : m ≠ 0) :
    npMaxAbs (xs.map (fun x => x / m * (9/10))) = some (9/10) := by
  have hm : 0 < m := lt_of_le_of_ne (npMaxAbs_spec xs m h).1 (Ne.symm h0)
  have hfun : (fun x : ℚ => x / m * (9/10)) = fun x => x * (9/10 / m) := by
    funext x; ring
  rw [hfun, npMaxAbs_map_mul xs _ (by positivity), h, Option.map_some']
  congr 1
  field_simp
  ring

/-- Every sample of a successfully normalized buffer is bounded by 0.9
in absolute value. -/
theorem normalize_audio_peak_le (xs ys : List ℚ)
    (h : normalize_audio xs = some ys) :
    ∀ y ∈ ys, |y| ≤ 9/10 := by
  cases hx : npMaxAbs xs with
  | none => rw [normalize_audio, hx] at h; exact absurd h (by simp)
  | some m =>
      obtain ⟨hm0, hle⟩ := npMaxAbs_spec xs m hx
      by_cases h0 : m = 0
      · subst h0
        rw [normalize_audio_of_zero xs hx] at h
        obtain rfl := Option.some.inj h
        intro y hy
        exact le_trans (hle y hy) (by norm_num)
      · rw [normalize_audio_of_ne_zero xs m hx h0] at h
        obtain rfl := (Option.some.inj h).symm
        intro y hy
        obtain ⟨x, hxmem, rfl⟩ := List.mem_map.1 hy
        have hmpos : 0 < m := lt_of_le_of_ne hm0 (Ne.symm h0)
        have habs : |x / m * (9/10)| = |x| / m * (9/10) := by
          rw [abs_mul, abs_div, abs_of_pos hmpos]
          norm_num
        rw [habs]
        calc |x| / m * (9/10) ≤ m / m * (9/10) := by
              have := (div_le_div_iff_of_pos_right hmpos).2 (hle x hxmem)
              exact mul_le_mul_of_nonneg_right this (by norm_num)
        _ = 9/10 := by rw [div_self (ne_of_gt hmpos), one_mul]

/-- C4: normalize_audio leaves an all-zero (peak m = 0) buffer unchanged,
and otherwise scales every sample by target/m (target = 0.9), after which
the peak absolute amplitude is exactly 0.9 — exactly, since the model
computes in exact rationals. -/
theorem normalize_audio_silence_or_scales (xs : List ℚ) (m : ℚ)
    (h : npMaxAbs xs = some m) :
    (m = 0 → normalize_audio xs = some xs) ∧
    (m ≠ 0 →
      normalize_audio xs = some (xs.map (fun x => x / m * (9/10))) ∧
      npMaxAbs (xs.map (fun x => x / m * (9/10))) = some (9/10)) := by
  constructor
  · intro h0; subst h0; exact normalize_audio_of_zero xs h
  · intro h0
    exact ⟨normalize_audio_of_ne_zero xs m h h0, npMaxAbs_after_normalize xs m h h0⟩

/-- Witness for C4 at the one-sample buffer 1/2: its peak is 1/2, it is
rescaled to 9/10 and the new peak is 9/10. -/
theorem normalize_audio_silence_or_scales_witness :
    normalize_audio [1/2] = some ([(1:ℚ)/2].map (fun x => x / (1/2) * (9/10))) ∧
    npMaxAbs (([(1:ℚ)/2]).map (fun x => x / (1/2) * (9/10))) = some (9/10) :=
  (normalize_audio_silence_or_scales [1/2] (1/2)
    (by norm_num [npMaxAbs, List.max?, abs_of_nonneg])).2 (by norm_num)

/-- C5: normalize_audio is idempotent — renormalizing a normalized buffer
returns it unchanged (the second pass scales by exactly 1), including the
failure cases (empty buffer) which reproduce themselves. -/
theorem normalize_audio_idempotent (xs : List ℚ) :
    (normalize_audio xs).bind normalize_audio = normalize_audio xs := by
  cases hx : npMaxAbs xs with
  | none => rw [normalize_audio, hx]; rfl
  | some m =>
      by_cases h0 : m = 0
      · subst h0
        have h1 := normalize_audio_of_zero xs hx
        rw [h1, Option.some_bind, h1]
      · have h1 := normalize_audio_of_ne_zero xs m hx h0
        have h2 := npMaxAbs_after_normalize xs m hx h0
        rw [h1, Option.some_bind]
        rw [normalize_audio_of_ne_zero _ (9/10) h2 (by norm_num)]
        congr 1
        have hc : ∀ z : ℚ, z / (9/10) * (9/10) = z :=
          fun z => div_mul_cancel₀ z (by norm_num)
        simp only [hc, List.map_id']

/-- C10: normalize_audio — and hence the cleaning chain, whose first stage
it is — is undefined on the zero-length buffer (numpy max of an empty
array raises), and on every non-empty buffer it succeeds and preserves
the length. -/
theorem normalize_audio_empty_undefined (noiseRed : List ℚ → List ℚ)
    (applyButter : ℕ → ℚ × ℚ → List ℚ → List ℚ)
    (xs : List ℚ) (h : xs ≠ []) :
    normalize_audio [] = none ∧
    cleanChain noiseRed applyButter [] = none ∧
    ∃ ys, normalize_audio xs = some ys ∧ ys.length = xs.length := by
  refine ⟨rfl, rfl, ?_⟩
  obtain ⟨m, hm⟩ := npMaxAbs_isSome xs h
  by_cases h0 : m = 0
  · subst h0
    exact ⟨xs, normalize_audio_of_zero xs hm, rfl⟩
  · exact ⟨_, normalize_audio_of_ne_zero xs m hm h0, List.length_map xs _⟩

/-- Witness for C10 at the one-sample buffer 1. -/
theorem normalize_audio_empty_undefined_witness :
    normalize_audio [] = none ∧
    cleanChain id (fun _ _ l => l) [] = none ∧
    ∃ ys, normalize_audio [(1:ℚ)] = some ys ∧ ys.length = [(1:ℚ)].length :=
  normalize_audio_empty_undefined id (fun _ _ l => l) [1] (List.cons_ne_nil 1 [])

/-- C1: whenever process_and_display produces a result, for any behaviour
of the external denoiser and Butterworth stages, the original buffer is
returned unmodified, the cleaned buffer is exactly the composition
Normalizer then NoiseReducer then BandpassFilter (at the working rate)
then Amplifier (gain 2) then Normalizer, and every cleaned sample is at
most 0.9 in absolute value (the 0.9 normalize target). -/
theorem process_and_display_order_and_peak (noiseRed : List ℚ → List ℚ)
    (applyButter : ℕ → ℚ × ℚ → List ℚ → List ℚ) (xs orig cleaned : List ℚ)
    (h : process_and_display noiseRed applyButter xs = some (orig, cleaned)) :
    orig = xs ∧
    (∃ a1, normalize_audio xs = some a1 ∧
      normalize_audio
        (amplify_audio
          (bandpass_filter applyButter (noiseRed a1) (srGlobal : ℚ) 500 2800)
          2) = some cleaned) ∧
    ∀ y ∈ cleaned, |y| ≤ 9/10 := by
  rw [process_and_display] at h
  obtain ⟨c, hc, hpair⟩ := Option.map_eq_some'.1 h
  obtain ⟨horig, hclean⟩ := Prod.mk.injEq .. ▸ hpair
  rw [cleanChain] at hc
  cases h1 : normalize_audio xs with
  | none => rw [h1] at hc; exact absurd hc (by simp)
  | some a1 =>
      rw [h1, Option.some_bind] at hc
      subst horig
      subst hclean
      exact ⟨rfl, ⟨a1, rfl, hc⟩, normalize_audio_peak_le _ c hc⟩

/-- Witness for C1 with identity denoiser and filter on the buffer 1/2:
the chain normalizes to 9/10, amplifies and clips to 1, renormalizes to
9/10; the original 1/2 is returned untouched. -/
theorem process_and_display_order_and_peak_witness :
    ([(1:ℚ)/2] = [(1:ℚ)/2]) ∧
    (∃ a1, normalize_audio [(1:ℚ)/2] = some a1 ∧
      normalize_audio
        (amplify_audio
          (bandpass_filter (fun _ _ l => l) (id a1) (srGlobal : ℚ) 500 2800)
          2) = some [(9:ℚ)/10]) ∧
    ∀ y ∈ [(9:ℚ)/10], |y| ≤ 9/10 :=
  process_and_display_order_and_peak id (fun _ _ l => l) [1/2] [1/2] [9/10]
    (by norm_num [process_and_display, cleanChain, normalize_audio, npMaxAbs,
      List.max?, amplify_audio, bandpass_filter, abs_of_nonneg])

/-- C2: once at least 2 seconds are captured, the mic button handler
processes exactly the trailing window of the concatenated history: the
history splits as a prefix plus the processed window, the window holds
the last min(total, 10 * srHz) samples in arrival order, and when the
total is within the 10-second cap the window is the whole, unmodified
history. -/
theorem micSnapshot_trailing_window (srHz : ℕ) (frames : List (List ℚ))
    (hne : frames ≠ []) (hlen : srHz * 2 ≤ frames.flatten.length) :
    ∃ pre window,
      frames.flatten = pre ++ window ∧
      micButtonHandler true true srHz frames = .processed window ∧
      window.length = min frames.flatten.length (srHz * 10) ∧
      (frames.flatten.length ≤ srHz * 10 → window = frames.flatten) := by
  cases frames with
  | nil => exact absurd rfl hne
  | cons f fs =>
      refine ⟨(f :: fs).flatten.take ((f :: fs).flatten.length - srHz * 10),
        (f :: fs).flatten.drop ((f :: fs).flatten.length - srHz * 10),
        (List.take_append_drop _ _).symm, ?_, ?_, ?_⟩
      · show micSnapshot srHz (f :: fs) = _
        rw [micSnapshot]
        rw [if_neg (Nat.not_lt.2 hlen)]
      · rw [List.length_drop]
        omega
      · intro hle
        rw [Nat.sub_eq_zero_of_le hle, List.drop_zero]

/-- Witness for C2 at one-second rate with three samples in two frames:
the whole history is returned (3 samples ≤ the 10-sample cap). -/
theorem micSnapshot_trailing_window_witness :
    ∃ pre window,
      ([[1, 2], [3]] : List (List ℚ)).flatten = pre ++ window ∧
      micButtonHandler true true 1 [[1, 2], [3]] = .processed window ∧
      window.length = min ([[1, 2], [3]] : List (List ℚ)).flatten.length (1 * 10) ∧
      (([[1, 2], [3]] : List (List ℚ)).flatten.length ≤ 1 * 10 →
        window = ([[1, 2], [3]] : List (List ℚ)).flatten) :=
  micSnapshot_trailing_window 1 [[1, 2], [3]] (by simp) (by simp)

/-- C3: a capture totalling fewer than 2 seconds of samples makes the mic
button handler warn about insufficient duration; in particular no window
is handed to the processing pipeline. -/
theorem micSnapshot_insufficient (srHz : ℕ) (frames : List (List ℚ))
    (hne : frames ≠ []) (hlen : frames.flatten.length < srHz * 2) :
    micButtonHandler true true srHz frames = .insufficientDuration ∧
    ∀ window, micButtonHandler true true srHz frames ≠ .processed window := by
  cases frames with
  | nil => exact absurd rfl hne
  | cons f fs =>
      have h1 : micButtonHandler true true srHz (f :: fs) = .insufficientDuration := by
        show micSnapshot srHz (f :: fs) = _
        rw [micSnapshot]
        rw [if_pos hlen]
      exact ⟨h1, fun window h2 => by rw [h1] at h2; exact absurd h2 (by simp)⟩

/-- Witness for C3 at 48000 Hz with a single one-sample frame
(1 sample < 96000 = two seconds). -/
theorem micSnapshot_insufficient_witness :
    micButtonHandler true true 48000 [[(1:ℚ)]] = .insufficientDuration :=
  (micSnapshot_insufficient 48000 [[1]] (by simp) (by simp)).1

/-- C6: with the stream playing and the audio processor attached but zero
accumulated frames, the mic button handler hits the np.concatenate crash
(numpy ValueError on an empty array list) instead of any recoverable
no-capture-data warning — the recoverable warning branch is taken only
when the stream is not playing or the processor is missing. -/
theorem micButtonHandler_empty_frames_crashes (srHz : ℕ) :
    micButtonHandler true true srHz [] = .crashConcatEmpty ∧
    micButtonHandler false true srHz [] = .noAudioData := ⟨rfl, rfl⟩

/-- C7: the cleaning chain designs its Butterworth coefficients from the
working sample rate srGlobal = 48000 — the rate every buffer in the
script is decoded and captured at — for every input buffer and every
filtering backend; the normalized band edges it passes to the design are
those of 48000 Hz, not those of the hardcoded 16000 Hz default in
bandpass_filter's signature, and the two differ. -/
theorem cleanChain_design_rate (noiseRed : List ℚ → List ℚ)
    (applyButter : ℕ → ℚ × ℚ → List ℚ → List ℚ) (xs : List ℚ) :
    cleanChain noiseRed applyButter xs =
      (normalize_audio xs).bind (fun a1 =>
        normalize_audio
          (amplify_audio
            (applyButter 6 (bandpass_wn (srGlobal : ℚ) 500 2800) (noiseRed a1))
            2)) ∧
    bandpass_wn (srGlobal : ℚ) 500 2800 = (1/48, 7/60) ∧
    bandpass_wn bandpass_default_sr 500 2800 = (1/16, 7/20) ∧
    bandpass_wn (srGlobal : ℚ) 500 2800 ≠ bandpass_wn bandpass_default_sr 500 2800 := by
  refine ⟨rfl, ?_, ?_, ?_⟩
  · rw [bandpass_wn]; norm_num [srGlobal]
  · rw [bandpass_wn, bandpass_default_sr]; norm_num
  · rw [bandpass_wn, bandpass_wn, bandpass_default_sr]
    norm_num [srGlobal]

/-- C8: the spec-modelled design operation produces no FilterSpecification
whenever the band condition 0 < lowHz < highHz < sampleRate/2 fails. -/
theorem design_invalid_band (order : ℕ) (lowHz highHz sampleRate : ℚ)
    (h : ¬(0 < lowHz ∧ lowHz < highHz ∧ highHz < sampleRate / 2)) :
    design order lowHz highHz sampleRate = none := by
  rw [design, if_neg h]

/-- Witness for C8: swapped band edges (2800, 500) at 48000 Hz are
rejected. -/
theorem design_invalid_band_witness :
    design 6 2800 500 48000 = none :=
  design_invalid_band 6 2800 500 48000 (by norm_num)

end SpeechFilter
